import Mathlib

/-!
Verification of the incremental-tui progression engine, upgrade resolver and
persistence gateway (`src/app.rs`).

The Rust code stores `progress` and `progress_per_tick` as IEEE 754 binary64
(`f64`) values and `amount` / `level` as `u64`.  We model `f64` values as exact
dyadic rationals together with an explicit round-to-nearest-ties-to-even
function `roundF` at 53 bits of precision (the binary64 significand), applied
after every arithmetic operation exactly where the Rust code performs a float
operation.  On top of the rounding model, the datatype `F64` adds the
overflow path of real binary64 arithmetic (infinities and NaN, overflow at
magnitude `2 ^ 1024`); on finite values the two models coincide.  `u64`
arithmetic is modelled on `Nat` with explicit reduction modulo `2 ^ 64` where
the Rust operation wraps, matching release-build semantics.
-/

namespace IncrementalTui

/-- `ResourceType` from `src/app.rs` (`Wood`, `Stone`, `Iron`, `Diamond`). -/
inductive ResourceType where
  | Wood
  | Stone
  | Iron
  | Diamond
deriving DecidableEq, Repr

/-- `Cost` from `src/app.rs`: an amount denominated in a resource kind. -/
structure Cost where
  amount : Nat
  resource_type : ResourceType
deriving DecidableEq, Repr

/-- `Resource` from `src/app.rs`.  `amount` and `level` are `u64` (modelled on
`Nat`, wrapped modulo `2 ^ 64` where the Rust code can wrap); `progress` and
`progress_per_tick` are `f64` values (modelled as exact rationals). -/
structure Resource where
  resource_type : ResourceType
  amount : Nat
  level : Nat
  cost : Cost
  progress : ℚ
  progress_per_tick : ℚ
deriving DecidableEq, Repr

/-- `GameState` from `src/app.rs`: the ordered collection of resources. -/
structure GameState where
  resources : List Resource
deriving DecidableEq, Repr

/-- `2 ^ 64`, the modulus of `u64` arithmetic. -/
def U64 : Nat := 2 ^ 64

/-! ### Exact model of binary64 arithmetic -/

/-- Fuel-driven base-2 logarithm on `Nat` (structural recursion so that the
kernel can evaluate it): `log2fuel f n = ⌊log₂ n⌋` whenever `f ≥ n ≥ 1`. -/
def log2fuel : Nat → Nat → Nat
  | 0, _ => 0
  | f + 1, n => if n < 2 then 0 else log2fuel f (n / 2) + 1

/-- Integer powers of two as rationals, for scaling significands. -/
def pow2 (z : ℤ) : ℚ :=
  if 0 ≤ z then ((2 ^ z.toNat : ℕ) : ℚ) else ((2 ^ (-z).toNat : ℕ) : ℚ)⁻¹

/-- `⌊log₂ q⌋` for a positive rational `q`. -/
def qlog2 (q : ℚ) : ℤ :=
  let e0 : ℤ := (log2fuel q.num.toNat q.num.toNat : ℤ) - (log2fuel q.den q.den : ℤ)
  if pow2 (e0 + 1) ≤ q then e0 + 1 else if pow2 e0 ≤ q then e0 else e0 - 1

/-- Round a positive rational to 53 significant binary digits, nearest,
ties to even: the binary64 rounding of a positive real. -/
def roundPos (q : ℚ) : ℚ :=
  let e : ℤ := qlog2 q
  let scaled : ℚ := q * pow2 (52 - e)
  let n : ℤ := ⌊scaled⌋
  let r : ℚ := scaled - (n : ℚ)
  let m : ℤ := if r < 1 / 2 then n else if 1 / 2 < r then n + 1 else if n % 2 = 0 then n else n + 1
  (m : ℚ) * pow2 (e - 52)

/-- Binary64 rounding (round to nearest, ties to even) of an exact rational. -/
def roundF (q : ℚ) : ℚ :=
  if q = 0 then 0 else if q < 0 then - roundPos (-q) else roundPos q

/-- `q` is (the exact value of) a binary64 number: rounding leaves it fixed. -/
abbrev isF64 (q : ℚ) : Prop := roundF q = q

/-- `f64` addition: exact sum, then binary64 rounding. -/
def fadd (a b : ℚ) : ℚ := roundF (a + b)

/-- `f64` multiplication: exact product, then binary64 rounding. -/
def fmul (a b : ℚ) : ℚ := roundF (a * b)

/-- `f64` division: exact quotient, then binary64 rounding. -/
def fdiv (a b : ℚ) : ℚ := roundF (a / b)

/-- The `u64 → f64` conversion (`resource.level as f64`), which rounds to
nearest. -/
def f64ofNat (n : Nat) : ℚ := roundF (n : ℚ)

/-- Truncation toward zero, as performed by Rust `f64::trunc`. -/
def qtrunc (q : ℚ) : ℤ := if 0 ≤ q then ⌊q⌋ else ⌈q⌉

/-- Rust `f64::floor`.  On a representable value the result is exact. -/
def ffloor (q : ℚ) : ℚ := (⌊q⌋ : ℚ)

/-- Rust `f64::fract` (`self - self.trunc()`).  For a representable value the
subtraction is exact, so no rounding step is needed. -/
def ffract (q : ℚ) : ℚ := q - (qtrunc q : ℚ)

/-- The saturating `f64 → u64` cast (`x as u64`): truncate toward zero and
clamp into `[0, 2 ^ 64 - 1]`. -/
def castF64toU64 (q : ℚ) : Nat := (min (max (qtrunc q) 0) (2 ^ 64 - 1)).toNat

/-!
The rounding model above has an unbounded exponent.  Real binary64 arithmetic
overflows: a rounded result of magnitude `2 ^ 1024` or more becomes an
infinity, and `fract` of an infinity (`∞ - trunc ∞`) is NaN.  The datatype
`F64` and the operations below add this overflow path on top of the rounding
model (there is no signed zero, and subnormal underflow is not modelled; no
value in this development reaches either).
-/

/-- A binary64 datum: a finite value (its exact rational), an infinity, or
NaN. -/
inductive F64 where
  | finite : ℚ → F64
  | inf : F64
  | neginf : F64
  | nan : F64
deriving DecidableEq, Repr

/-- `2 ^ 1024`, the binary64 overflow threshold: a rounded result of this
magnitude or more becomes an infinity. -/
def F64_OVERFLOW : ℚ := ((2 ^ 1024 : ℕ) : ℚ)

/-- Classify an already-rounded rational as a binary64 datum, overflowing to
an infinity at magnitude `2 ^ 1024` (the IEEE 754 overflow rule for round to
nearest: round as if the exponent were unbounded, then compare). -/
def mkF64 (q : ℚ) : F64 :=
  if F64_OVERFLOW ≤ q then .inf else if q ≤ -F64_OVERFLOW then .neginf else .finite q

/-- `f64` addition with infinities and NaN. -/
def fadd64 : F64 → F64 → F64
  | .finite a, .finite b => mkF64 (fadd a b)
  | .nan, _ => .nan
  | _, .nan => .nan
  | .inf, .neginf => .nan
  | .neginf, .inf => .nan
  | .inf, _ => .inf
  | _, .inf => .inf
  | .neginf, _ => .neginf
  | _, .neginf => .neginf

/-- `f64` multiplication with infinities and NaN. -/
def fmul64 : F64 → F64 → F64
  | .finite a, .finite b => mkF64 (fmul a b)
  | .nan, _ => .nan
  | _, .nan => .nan
  | .inf, .finite b => if b = 0 then .nan else if 0 < b then .inf else .neginf
  | .finite a, .inf => if a = 0 then .nan else if 0 < a then .inf else .neginf
  | .neginf, .finite b => if b = 0 then .nan else if 0 < b then .neginf else .inf
  | .finite a, .neginf => if a = 0 then .nan else if 0 < a then .neginf else .inf
  | .inf, .inf => .inf
  | .neginf, .neginf => .inf
  | .inf, .neginf => .neginf
  | .neginf, .inf => .neginf

/-- `f64` division with infinities and NaN (division by zero gives a signed
infinity, `0/0` gives NaN; a finite value over an infinity gives zero). -/
def fdiv64 : F64 → F64 → F64
  | .finite a, .finite b =>
    if b = 0 then (if a = 0 then .nan else if 0 < a then .inf else .neginf)
    else mkF64 (fdiv a b)
  | .nan, _ => .nan
  | _, .nan => .nan
  | .inf, .finite b => if b < 0 then .neginf else .inf
  | .neginf, .finite b => if b < 0 then .inf else .neginf
  | .finite _, .inf => .finite 0
  | .finite _, .neginf => .finite 0
  | .inf, .inf => .nan
  | .inf, .neginf => .nan
  | .neginf, .inf => .nan
  | .neginf, .neginf => .nan

/-- Rust `f64::fract` on a binary64 datum: exact on finite values, and
`∞ - trunc ∞ = NaN` on the infinities (and NaN propagates). -/
def ffract64 : F64 → F64
  | .finite q => .finite (ffract q)
  | _ => .nan

/-- Whether a binary64 datum is a finite number. -/
def F64.isFinite : F64 → Bool
  | .finite _ => true
  | _ => false

/-- The comparison `0 ≤ x ∧ x < 1` as it evaluates on a binary64 datum:
infinities fail it, and every comparison with NaN is false. -/
def F64.inUnitIco : F64 → Prop
  | .finite q => 0 ≤ q ∧ q < 1
  | _ => False

instance (f : F64) : Decidable (F64.inUnitIco f) :=
  match f with
  | .finite q => inferInstanceAs (Decidable (0 ≤ q ∧ q < 1))
  | .inf => isFalse (fun h => h)
  | .neginf => isFalse (fun h => h)
  | .nan => isFalse (fun h => h)

/-! ### Economy model and progression engine (`src/app.rs`) -/

/-- `Resource::upgrade_cost`:
`Cost::new(self.cost.amount.pow(self.level as u32 + 1), self.cost.resource_type)`.
The `as u32` cast truncates modulo `2 ^ 32`, the `u32` increment and the `u64`
power wrap (release-build semantics). -/
def upgrade_cost (r : Resource) : Cost :=
  ⟨(r.cost.amount ^ ((r.level % 2 ^ 32 + 1) % 2 ^ 32)) % U64, r.cost.resource_type⟩

/-- The per-resource body of `App::tick`:
`progress += level as f64 * progress_per_tick / 100.0;`
`let whole_part = progress.floor() as u64;`
`amount += whole_part;  progress = progress.fract();`. -/
def tickResource (r : Resource) : Resource :=
  let p1 := fadd r.progress (fdiv (fmul (f64ofNat r.level) r.progress_per_tick) 100)
  let whole := castF64toU64 (ffloor p1)
  { r with amount := (r.amount + whole) % U64, progress := ffract p1 }

/-- `App::tick`: apply the accrual step to every resource, in collection
order. -/
def tick (s : GameState) : GameState :=
  ⟨s.resources.map tickResource⟩

/-- The progress value computed by one accrual step of `App::tick` for one
resource, tracked through full binary64 semantics including overflow:
`(progress + level as f64 * progress_per_tick / 100.0).fract()`.  (The `u64 →
f64` conversion of the level cannot overflow, and the stored `progress` and
`progress_per_tick` are finite.) -/
def tickProgress64 (r : Resource) : F64 :=
  ffract64 (fadd64 (.finite r.progress)
    (fdiv64 (fmul64 (.finite (f64ofNat r.level)) (.finite r.progress_per_tick)) (.finite 100)))

/-- `App::upgrade_resource` for a present index (the `None` branch only moves
the cursor).  Out-of-range indexing panics in Rust, modelled as `none`;
otherwise the function returns the successor state.  The cost resource is the
first entry whose kind matches the cost kind; the debit happens first, then
the target's level is incremented (wrapping `u64` increment). -/
def upgrade_resource (s : GameState) (index : Nat) : Option GameState :=
  match s.resources[index]? with
  | none => none
  | some target =>
    let cost := upgrade_cost target
    match s.resources.findIdx? (fun x => decide (x.resource_type = cost.resource_type)) with
    | none => some s
    | some j =>
      let cr := s.resources.getD j target
      if cr.amount < cost.amount then some s
      else
        let rs1 := s.resources.set j { cr with amount := cr.amount - cost.amount }
        let t2 := rs1.getD index target
        some ⟨rs1.set index { t2 with level := (t2.level + 1) % U64 }⟩

/-- A default placeholder resource, used as the `List.getD` fallback in the
statements below (never actually selected at an in-range index). -/
def rdefault : Resource := ⟨.Wood, 0, 0, ⟨0, .Wood⟩, 0, 0⟩

/-- The cost resource at position `j` after a successful upgrade of the target
at position `i` debits it. -/
def debitedCostResource (s : GameState) (i j : Nat) : Resource :=
  { s.resources.getD j rdefault with
    amount := (s.resources.getD j rdefault).amount -
      (upgrade_cost (s.resources.getD i rdefault)).amount }

/-- The target resource at position `i` after a successful upgrade: read back
from the debited list (so a self-referential cost is already debited), with
the level incremented (wrapping `u64` increment). -/
def upgradedTarget (s : GameState) (i j : Nat) : Resource :=
  { (s.resources.set j (debitedCostResource s i j)).getD i rdefault with
    level := (((s.resources.set j (debitedCostResource s i j)).getD i rdefault).level + 1) % U64 }

/-- The successor state of a successful upgrade: debit position `j`, then
replace position `i` by the levelled-up target. -/
def applyUpgrade (s : GameState) (i j : Nat) : GameState :=
  ⟨(s.resources.set j (debitedCostResource s i j)).set i (upgradedTarget s i j)⟩

/-! ### Persistence gateway -/

/-- The JSON document tree produced by `serde_json` for the save file.
`f64` leaves keep their exact rational value: `serde_json` prints an `f64`
with a shortest-round-trip algorithm and parses it back to the identical
`f64`, so the text layer is the identity on the values modelled here. -/
inductive Json where
  | str : String → Json
  | nat : Nat → Json
  | num : ℚ → Json
  | arr : List Json → Json
  | obj : List (String × Json) → Json

/-- Derived `Serialize` for `ResourceType`: a unit enum variant serializes as
its name. -/
def encodeResourceType : ResourceType → Json
  | .Wood => .str "Wood"
  | .Stone => .str "Stone"
  | .Iron => .str "Iron"
  | .Diamond => .str "Diamond"

/-- Derived `Deserialize` for `ResourceType`. -/
def decodeResourceType : Json → Option ResourceType
  | .str "Wood" => some .Wood
  | .str "Stone" => some .Stone
  | .str "Iron" => some .Iron
  | .str "Diamond" => some .Diamond
  | _ => none

/-- Derived `Serialize` for `Cost`: fields in declaration order. -/
def encodeCost (c : Cost) : Json :=
  .obj [("amount", .nat c.amount), ("resource_type", encodeResourceType c.resource_type)]

/-- Derived `Deserialize` for `Cost`. -/
def decodeCost : Json → Option Cost
  | .obj [("amount", .nat a), ("resource_type", jt)] =>
    (decodeResourceType jt).map (fun t => ⟨a, t⟩)
  | _ => none

/-- Derived `Serialize` for `Resource`: fields in declaration order. -/
def encodeResource (r : Resource) : Json :=
  .obj [("resource_type", encodeResourceType r.resource_type),
        ("amount", .nat r.amount),
        ("level", .nat r.level),
        ("cost", encodeCost r.cost),
        ("progress", .num r.progress),
        ("progress_per_tick", .num r.progress_per_tick)]

/-- Derived `Deserialize` for `Resource`. -/
def decodeResource : Json → Option Resource
  | .obj [("resource_type", jt), ("amount", .nat a), ("level", .nat l),
          ("cost", jc), ("progress", .num p), ("progress_per_tick", .num ppt)] =>
    match decodeResourceType jt, decodeCost jc with
    | some t, some c => some ⟨t, a, l, c, p, ppt⟩
    | _, _ => none
  | _ => none

/-- Element-wise deserialization of the resource array. -/
def decodeResourceList : List Json → Option (List Resource)
  | [] => some []
  | j :: js =>
    match decodeResource j, decodeResourceList js with
    | some r, some rs => some (r :: rs)
    | _, _ => none

/-- Derived `Serialize` for `GameState`, as written by `App::save`. -/
def encodeGameState (s : GameState) : Json :=
  .obj [("resources", .arr (s.resources.map encodeResource))]

/-- Derived `Deserialize` for `GameState`, as read by `App::load`. -/
def decodeGameState : Json → Option GameState
  | .obj [("resources", .arr js)] => (decodeResourceList js).map GameState.mk
  | _ => none

/-- `App::save`: serialize the full game state. -/
def save (s : GameState) : Json := encodeGameState s

/-- Modelled from the spec: the fixed tick-rate constant `TICK_FPS` is
declared in `src/event.rs`, which is not among the provided sources.  The spec
fixes it as a stable, known ticks-per-second `f64` constant, used identically
by the live loop and by offline catch-up, and its offline catch-up scenario
uses 10 ticks per second. -/
def TICK_FPS : ℚ := 10

/-- The offline-tick count computed by `App::load`:
`(offline_secs * TICK_FPS).floor() as u64` (an `f64` multiply, `f64::floor`,
and a saturating cast).  `offline_secs` is the elapsed wall-clock time in
seconds as the `f64` produced by `Duration::as_secs_f64`. -/
def offline_ticks (offline_secs : ℚ) : Nat :=
  castF64toU64 (ffloor (fmul offline_secs TICK_FPS))

/-- The catch-up loop of `App::load`: `for _ in 0..offline_ticks { self.tick() }`. -/
def replayLoop : Nat → GameState → GameState
  | 0, s => s
  | n + 1, s => replayLoop n (tick s)

/-- `App::load` after the file has been read: deserialize the saved state and
replay the offline ticks.  A parse failure is `none` (fatal in Rust). -/
def load (j : Json) (offline_secs : ℚ) : Option GameState :=
  (decodeGameState j).map (fun s => replayLoop (offline_ticks offline_secs) s)

/-! ### Concrete states used as witnesses and counterexamples -/

/-- `GameState::default` from `src/app.rs`.  The rate literals `0.1` and
`0.010` denote their binary64 values, which are not exactly one tenth and one
hundredth: the exact rationals are written out. -/
def defaultGameState : GameState :=
  ⟨[⟨.Wood, 2, 0, ⟨2, .Wood⟩, 0, 1⟩,
    ⟨.Stone, 0, 0, ⟨3, .Wood⟩, 0, 1 / 2⟩,
    ⟨.Iron, 0, 0, ⟨4, .Stone⟩, 0, 3602879701896397 / 36028797018963968⟩,
    ⟨.Diamond, 0, 0, ⟨5, .Iron⟩, 0, 5764607523034235 / 576460752303423488⟩]⟩

/-- The §8 reference scenario: Wood at level 1, `progress_per_tick = 1.0`,
empty bank, progress 0. -/
def gs9 : GameState := ⟨[⟨.Wood, 0, 1, ⟨2, .Wood⟩, 0, 1⟩]⟩

/-- A state whose only resource holds the maximum `u64` amount and accrues
exactly one whole unit per tick (level 100, rate 1.0). -/
def gs8 : GameState := ⟨[⟨.Wood, 2 ^ 64 - 1, 100, ⟨2, .Wood⟩, 0, 1⟩]⟩

/-- A state whose only resource sits at the maximum `u64` level, with funds
to cover its (wrapped-around) upgrade cost. -/
def gs3 : GameState := ⟨[⟨.Wood, 5, 2 ^ 64 - 1, ⟨2, .Wood⟩, 0, 1⟩]⟩

/-- Resource for the cost-curve counterexample: base cost 2 Wood, level 63. -/
def r63 : Resource := ⟨.Wood, 0, 63, ⟨2, .Wood⟩, 0, 1⟩

/-- A valid resource on which the accrual increment overflows: progress `1/2`
is in `[0, 1)`, `progress_per_tick = 2 ^ 1000` is a finite positive binary64
value, and the level `2 ^ 63` converts to `f64` exactly; their product
`2 ^ 1063` exceeds the binary64 range. -/
def rbad : Resource := ⟨.Wood, 0, 2 ^ 63, ⟨2, .Wood⟩, 1 / 2, ((2 ^ 1000 : ℕ) : ℚ)⟩

/-- The game state holding `rbad` alone. -/
def sbad : GameState := ⟨[rbad]⟩

/-! ### Basic lemmas about the binary64 model -/

theorem roundF_zero : roundF 0 = 0 := by
  simp [roundF]

theorem pow2_nonneg (z : ℤ) : 0 ≤ pow2 z := by
  unfold pow2
  split
  · exact_mod_cast Nat.zero_le _
  · exact inv_nonneg.mpr (by exact_mod_cast Nat.zero_le _)

theorem roundPos_nonneg (q : ℚ) (h : 0 ≤ q) : 0 ≤ roundPos q := by
  unfold roundPos
  have hscaled : (0 : ℚ) ≤ q * pow2 (52 - qlog2 q) := mul_nonneg h (pow2_nonneg _)
  have hn : (0 : ℤ) ≤ ⌊q * pow2 (52 - qlog2 q)⌋ := Int.floor_nonneg.mpr hscaled
  refine mul_nonneg ?_ (pow2_nonneg _)
  have : (0 : ℤ) ≤
      (if q * pow2 (52 - qlog2 q) - (⌊q * pow2 (52 - qlog2 q)⌋ : ℚ) < 1 / 2 then
        ⌊q * pow2 (52 - qlog2 q)⌋
      else if 1 / 2 < q * pow2 (52 - qlog2 q) - (⌊q * pow2 (52 - qlog2 q)⌋ : ℚ) then
        ⌊q * pow2 (52 - qlog2 q)⌋ + 1
      else if ⌊q * pow2 (52 - qlog2 q)⌋ % 2 = 0 then ⌊q * pow2 (52 - qlog2 q)⌋
      else ⌊q * pow2 (52 - qlog2 q)⌋ + 1) := by
    split
    · exact hn
    · split
      · omega
      · split
        · exact hn
        · omega
  exact_mod_cast this

theorem roundF_nonneg {q : ℚ} (h : 0 ≤ q) : 0 ≤ roundF q := by
  unfold roundF
  split
  · exact le_refl 0
  · split
    · linarith
    · exact roundPos_nonneg q h

theorem qtrunc_of_nonneg {q : ℚ} (h : 0 ≤ q) : qtrunc q = ⌊q⌋ := by
  simp [qtrunc, h]

theorem ffract_nonneg {q : ℚ} (h : 0 ≤ q) : 0 ≤ ffract q := by
  rw [ffract, qtrunc_of_nonneg h]
  exact sub_nonneg.mpr (Int.floor_le q)

theorem ffract_lt_one {q : ℚ} (h : 0 ≤ q) : ffract q < 1 := by
  rw [ffract, qtrunc_of_nonneg h, sub_lt_iff_lt_add]
  have := Int.lt_floor_add_one q
  linarith

theorem f64ofNat_zero : f64ofNat 0 = 0 := by
  simp [f64ofNat, roundF_zero]

theorem fmul_zero_left (b : ℚ) : fmul 0 b = 0 := by
  simp [fmul, roundF_zero]

theorem fdiv_zero_left (b : ℚ) : fdiv 0 b = 0 := by
  simp [fdiv, roundF_zero]

theorem fadd_zero_right {a : ℚ} (h : isF64 a) : fadd a 0 = a := by
  rw [fadd, add_zero]
  exact h

theorem castF64toU64_zero : castF64toU64 0 = 0 := by
  simp [castF64toU64, qtrunc]

/-- A level-0 resource with a well-formed `f64` progress in `[0, 1)` and an
in-range amount is entirely unchanged by one accrual step. -/
theorem tickResource_level0 {r : Resource} (h0 : r.level = 0) (hp0 : 0 ≤ r.progress)
    (hp1 : r.progress < 1) (hf : isF64 r.progress) (ha : r.amount < U64) :
    tickResource r = r := by
  have hfl : ⌊r.progress⌋ = 0 := by
    rw [Int.floor_eq_zero_iff]
    exact ⟨hp0, hp1⟩
  have hinc : fdiv (fmul (f64ofNat r.level) r.progress_per_tick) 100 = 0 := by
    rw [h0, f64ofNat_zero, fmul_zero_left, fdiv_zero_left]
  have hffloor : ffloor r.progress = 0 := by
    rw [ffloor, hfl, Int.cast_zero]
  have hffract : ffract r.progress = r.progress := by
    rw [ffract, qtrunc_of_nonneg hp0, hfl, Int.cast_zero, sub_zero]
  simp only [tickResource, hinc, fadd_zero_right hf, hffloor, castF64toU64_zero,
    hffract, Nat.add_zero, Nat.mod_eq_of_lt ha]

theorem tickResource_iterate_level0 {r : Resource} (n : ℕ) (h0 : r.level = 0)
    (hp0 : 0 ≤ r.progress) (hp1 : r.progress < 1) (hf : isF64 r.progress)
    (ha : r.amount < U64) :
    tickResource^[n] r = r := by
  induction n with
  | zero => rfl
  | succ n ih => rw [Function.iterate_succ_apply, tickResource_level0 h0 hp0 hp1 hf ha, ih]

/-- Iterating `tick` acts element-wise as iterating the per-resource step. -/
theorem tick_iterate_resources (s : GameState) (n : ℕ) :
    (tick^[n] s).resources = s.resources.map (tickResource^[n]) := by
  induction n with
  | zero => simp
  | succ n ih =>
    calc (tick^[n + 1] s).resources
        = (tick (tick^[n] s)).resources := by rw [Function.iterate_succ_apply']
      _ = (tick^[n] s).resources.map tickResource := rfl
      _ = (s.resources.map (tickResource^[n])).map tickResource := by rw [ih]
      _ = s.resources.map (tickResource ∘ tickResource^[n]) := by rw [List.map_map]
      _ = s.resources.map (tickResource^[n + 1]) := by rw [Function.iterate_succ']

/-! ### Claim theorems -/

/-- Claim C1: on a state whose resources all carry a well-formed progress in
`[0, 1)`, a single tick processes the resources in collection order, and for
each resource adds the binary64 increment `level * progress_per_tick / 100` to
`progress`, adds `floor(progress)` to `amount`, and retains only the
fractional remainder in `progress`; in particular a level-0 resource has its
amount unchanged by any number of ticks. -/
theorem tick_accrual_rule (s : GameState)
    (h : ∀ r ∈ s.resources,
      0 ≤ r.progress ∧ r.progress < 1 ∧ isF64 r.progress ∧ r.amount < U64) :
    (tick s).resources = s.resources.map tickResource ∧
    (∀ r ∈ s.resources,
      (tickResource r).progress =
        ffract (fadd r.progress (fdiv (fmul (f64ofNat r.level) r.progress_per_tick) 100)) ∧
      (tickResource r).amount =
        (r.amount + castF64toU64 (ffloor (fadd r.progress
          (fdiv (fmul (f64ofNat r.level) r.progress_per_tick) 100)))) % U64) ∧
    (∀ n i, (s.resources.getD i rdefault).level = 0 →
      ((tick^[n] s).resources.getD i rdefault).amount =
        (s.resources.getD i rdefault).amount) := by
  refine ⟨rfl, fun r _ => ⟨rfl, rfl⟩, fun n i h0 => ?_⟩
  by_cases hi : i < s.resources.length
  · have hget : s.resources.getD i rdefault = s.resources[i] := List.getD_eq_getElem _ _ hi
    have hmem : s.resources[i] ∈ s.resources := List.getElem_mem hi
    obtain ⟨hp0, hp1, hf, ha⟩ := h _ hmem
    have h0i : (s.resources[i]).level = 0 := by rw [hget] at h0; exact h0
    have hiter : tickResource^[n] (s.resources[i]) = s.resources[i] :=
      tickResource_iterate_level0 n h0i hp0 hp1 hf ha
    have hlen : i < (s.resources.map (tickResource^[n])).length := by
      rw [List.length_map]; exact hi
    rw [tick_iterate_resources, List.getD_eq_getElem _ _ hlen, List.getElem_map, hiter, hget]
  · have hge : s.resources.length ≤ i := le_of_not_lt hi
    have hge2 : (s.resources.map (tickResource^[n])).length ≤ i := by
      rw [List.length_map]; exact hge
    rw [tick_iterate_resources, List.getD_eq_default _ _ hge2, List.getD_eq_default _ _ hge]

/-- In the rounding model, starting from progress in `[0, 1)` with a positive
rate, every resource's progress after one tick lies in `[0, 1)` again. -/
theorem tick_progress_model_invariant (s : GameState)
    (h : ∀ r ∈ s.resources, (0 ≤ r.progress ∧ r.progress < 1) ∧ 0 < r.progress_per_tick) :
    ∀ r ∈ (tick s).resources, 0 ≤ r.progress ∧ r.progress < 1 := by
  intro q hq
  rw [tick] at hq
  simp only [List.mem_map] at hq
  obtain ⟨r, hr, rfl⟩ := hq
  obtain ⟨⟨hp0, -⟩, hppt⟩ := h r hr
  have hlev : (0 : ℚ) ≤ f64ofNat r.level := roundF_nonneg (by exact_mod_cast Nat.zero_le _)
  have hmul : (0 : ℚ) ≤ fmul (f64ofNat r.level) r.progress_per_tick :=
    roundF_nonneg (mul_nonneg hlev hppt.le)
  have hdiv : (0 : ℚ) ≤ fdiv (fmul (f64ofNat r.level) r.progress_per_tick) 100 :=
    roundF_nonneg (div_nonneg hmul (by norm_num))
  have hsum : (0 : ℚ) ≤ fadd r.progress (fdiv (fmul (f64ofNat r.level) r.progress_per_tick) 100) :=
    roundF_nonneg (add_nonneg hp0 hdiv)
  have heq : (tickResource r).progress =
      ffract (fadd r.progress (fdiv (fmul (f64ofNat r.level) r.progress_per_tick) 100)) := rfl
  rw [heq]
  exact ⟨ffract_nonneg hsum, ffract_lt_one hsum⟩

theorem mkF64_finite {x y : ℚ} (h : mkF64 x = .finite y) : y = x := by
  rw [mkF64] at h
  split at h
  · cases h
  · split at h
    · cases h
    · cases h
      rfl

theorem mkF64_ne_nan (x : ℚ) : mkF64 x ≠ .nan := by
  rw [mkF64]
  split
  · intro h; cases h
  · split
    · intro h; cases h
    · intro h; cases h

/-- When the accrual computation stays finite, its binary64 value is exactly
the one computed by the rational rounding model. -/
theorem tickProgress64_eq_of_isFinite (r : Resource)
    (hfin : (tickProgress64 r).isFinite = true) :
    tickProgress64 r = .finite ((tickResource r).progress) := by
  rw [tickProgress64,
    show fmul64 (.finite (f64ofNat r.level)) (.finite r.progress_per_tick) =
      mkF64 (fmul (f64ofNat r.level) r.progress_per_tick) from rfl] at hfin ⊢
  cases hmul : mkF64 (fmul (f64ofNat r.level) r.progress_per_tick) with
  | nan => exact absurd hmul (mkF64_ne_nan _)
  | inf =>
    rw [hmul] at hfin
    rw [show fdiv64 F64.inf (.finite (100 : ℚ)) = F64.inf from by
      rw [fdiv64, if_neg (by norm_num)]] at hfin
    simp [fadd64, ffract64, F64.isFinite] at hfin
  | neginf =>
    rw [hmul] at hfin
    rw [show fdiv64 F64.neginf (.finite (100 : ℚ)) = F64.neginf from by
      rw [fdiv64, if_neg (by norm_num)]] at hfin
    simp [fadd64, ffract64, F64.isFinite] at hfin
  | finite qm =>
    have hqm : qm = fmul (f64ofNat r.level) r.progress_per_tick := mkF64_finite hmul
    rw [hmul] at hfin
    rw [show fdiv64 (.finite qm) (.finite (100 : ℚ)) = mkF64 (fdiv qm 100) from by
      rw [fdiv64, if_neg (by norm_num)]] at hfin ⊢
    cases hdiv : mkF64 (fdiv qm 100) with
    | nan => exact absurd hdiv (mkF64_ne_nan _)
    | inf =>
      rw [hdiv] at hfin
      simp [fadd64, ffract64, F64.isFinite] at hfin
    | neginf =>
      rw [hdiv] at hfin
      simp [fadd64, ffract64, F64.isFinite] at hfin
    | finite qd =>
      have hqd : qd = fdiv qm 100 := mkF64_finite hdiv
      rw [hdiv] at hfin
      rw [show fadd64 (.finite r.progress) (.finite qd) = mkF64 (fadd r.progress qd) from rfl]
        at hfin ⊢
      cases hadd : mkF64 (fadd r.progress qd) with
      | nan => exact absurd hadd (mkF64_ne_nan _)
      | inf =>
        rw [hadd] at hfin
        simp [ffract64, F64.isFinite] at hfin
      | neginf =>
        rw [hadd] at hfin
        simp [ffract64, F64.isFinite] at hfin
      | finite qa =>
        have hqa : qa = fadd r.progress qd := mkF64_finite hadd
        subst hqa
        subst hqd
        subst hqm
        rfl

/-- Claim C2 (amended): from a state whose resources have progress in
`[0, 1)` and a positive rate, and whose accrual computations stay within the
finite binary64 range, a single tick leaves every resource's progress in
`[0, 1)`, and the true binary64 progress coincides with the rounding model's.
Without the no-overflow condition the claim fails: the increment can overflow
to `+∞` and `fract` then stores NaN (see the counterexample). -/
theorem tick_progress_invariant_no_overflow (s : GameState)
    (h : ∀ r ∈ s.resources, (0 ≤ r.progress ∧ r.progress < 1) ∧ 0 < r.progress_per_tick)
    (hfin : ∀ r ∈ s.resources, (tickProgress64 r).isFinite = true) :
    (∀ r ∈ s.resources, tickProgress64 r = .finite ((tickResource r).progress)) ∧
    (∀ r ∈ (tick s).resources, 0 ≤ r.progress ∧ r.progress < 1) :=
  ⟨fun r hr => tickProgress64_eq_of_isFinite r (hfin r hr),
   tick_progress_model_invariant s h⟩

/-- Claim C10: a tick changes only the `amount` and `progress` fields; the
kind, level, base cost and rate of every resource, and the number and order of
the resources, are unchanged. -/
theorem tick_frame_condition (s : GameState) :
    (tick s).resources.length = s.resources.length ∧
    (tick s).resources.map (fun r => (r.resource_type, r.level, r.cost, r.progress_per_tick)) =
      s.resources.map (fun r => (r.resource_type, r.level, r.cost, r.progress_per_tick)) := by
  refine ⟨by simp [tick], ?_⟩
  rw [tick, List.map_map]
  exact List.map_congr_left fun r _ => rfl

/-- Claim C4: when the cost resource exists but cannot afford the upgrade,
`upgrade_resource` returns the state unchanged: a true no-op. -/
theorem upgrade_insufficient_funds_noop (s : GameState) (i j : Nat)
    (hi : i < s.resources.length) (hj : j < s.resources.length)
    (hfind : s.resources.findIdx?
      (fun x => decide (x.resource_type =
        (upgrade_cost (s.resources.getD i rdefault)).resource_type)) = some j)
    (hlt : (s.resources.getD j rdefault).amount <
      (upgrade_cost (s.resources.getD i rdefault)).amount) :
    upgrade_resource s i = some s := by
  have hgi : s.resources[i]? = some (s.resources.getD i rdefault) := by
    rw [List.getD_eq_getElem _ _ hi]
    exact List.getElem?_eq_getElem hi
  have hgj : s.resources.getD j (s.resources.getD i rdefault) = s.resources.getD j rdefault := by
    rw [List.getD_eq_getElem _ _ hj, List.getD_eq_getElem _ _ hj]
  simp only [upgrade_resource, hgi, hfind, hgj]
  rw [if_pos hlt]

/-- Unfolding of `upgrade_resource` in the affordable case: the result is the
debit-then-level-up state `applyUpgrade`. -/
theorem upgrade_resource_eq_applyUpgrade (s : GameState) (i j : Nat)
    (hi : i < s.resources.length) (hj : j < s.resources.length)
    (hfind : s.resources.findIdx?
      (fun x => decide (x.resource_type =
        (upgrade_cost (s.resources.getD i rdefault)).resource_type)) = some j)
    (hafford : (upgrade_cost (s.resources.getD i rdefault)).amount ≤
      (s.resources.getD j rdefault).amount) :
    upgrade_resource s i = some (applyUpgrade s i j) := by
  have hgi : s.resources[i]? = some (s.resources.getD i rdefault) := by
    rw [List.getD_eq_getElem _ _ hi]
    exact List.getElem?_eq_getElem hi
  have hgj : s.resources.getD j (s.resources.getD i rdefault) = s.resources.getD j rdefault := by
    rw [List.getD_eq_getElem _ _ hj, List.getD_eq_getElem _ _ hj]
  have hnlt : ¬ ((s.resources.getD j rdefault).amount <
      (upgrade_cost (s.resources.getD i rdefault)).amount) := not_lt.mpr hafford
  have hlen1 : i < (s.resources.set j (debitedCostResource s i j)).length := by
    rw [List.length_set]; exact hi
  have hgd : (s.resources.set j (debitedCostResource s i j)).getD i (s.resources.getD i rdefault)
      = (s.resources.set j (debitedCostResource s i j)).getD i rdefault := by
    rw [List.getD_eq_getElem _ _ hlen1, List.getD_eq_getElem _ _ hlen1]
  simp only [upgrade_resource, hgi, hfind, hgj]
  rw [if_neg hnlt]
  rw [show { s.resources.getD j rdefault with
      amount := (s.resources.getD j rdefault).amount -
        (upgrade_cost (s.resources.getD i rdefault)).amount } = debitedCostResource s i j from rfl]
  rw [hgd]
  rfl

theorem upgrade_applied_exact_mutation (s : GameState) (i j : Nat)
    (hi : i < s.resources.length) (hj : j < s.resources.length)
    (hfind : s.resources.findIdx?
      (fun x => decide (x.resource_type =
        (upgrade_cost (s.resources.getD i rdefault)).resource_type)) = some j)
    (hafford : (upgrade_cost (s.resources.getD i rdefault)).amount ≤
      (s.resources.getD j rdefault).amount)
    (hlevel : (s.resources.getD i rdefault).level + 1 < U64) :
    ∃ s2, upgrade_resource s i = some s2 ∧
      s2.resources.length = s.resources.length ∧
      ∀ k, s2.resources.getD k rdefault =
        { s.resources.getD k rdefault with
          amount := if k = j then (s.resources.getD k rdefault).amount -
              (upgrade_cost (s.resources.getD i rdefault)).amount
            else (s.resources.getD k rdefault).amount,
          level := if k = i then (s.resources.getD k rdefault).level + 1
            else (s.resources.getD k rdefault).level } := by
  refine ⟨applyUpgrade s i j, upgrade_resource_eq_applyUpgrade s i j hi hj hfind hafford, ?_, ?_⟩
  · show ((s.resources.set j (debitedCostResource s i j)).set i (upgradedTarget s i j)).length = _
    rw [List.length_set, List.length_set]
  · intro k
    have hij_get : (s.resources.set j (debitedCostResource s i j)).getD i rdefault =
        if j = i then debitedCostResource s i j else s.resources.getD i rdefault := by
      rw [List.getD_eq_getElem?_getD, List.getElem?_set]
      by_cases hij : j = i
      · rw [if_pos hij, if_pos hj, Option.getD_some, if_pos hij]
      · rw [if_neg hij, ← List.getD_eq_getElem?_getD, if_neg hij]
    have hT : upgradedTarget s i j =
        { s.resources.getD i rdefault with
          amount := if i = j then (s.resources.getD i rdefault).amount -
              (upgrade_cost (s.resources.getD i rdefault)).amount
            else (s.resources.getD i rdefault).amount,
          level := (s.resources.getD i rdefault).level + 1 } := by
      rw [upgradedTarget, hij_get]
      by_cases hij : j = i
      · subst hij
        rw [if_pos rfl, if_pos rfl]
        rw [show (debitedCostResource s j j).level = (s.resources.getD j rdefault).level from rfl]
        rw [Nat.mod_eq_of_lt hlevel]
        rfl
      · rw [if_neg hij, if_neg (fun h => hij h.symm)]
        rw [Nat.mod_eq_of_lt hlevel]
    have hres : (applyUpgrade s i j).resources =
        (s.resources.set j (debitedCostResource s i j)).set i (upgradedTarget s i j) := rfl
    rw [hres]
    by_cases hk : k < s.resources.length
    · rw [List.getD_eq_getElem?_getD, List.getElem?_set, List.getElem?_set]
      by_cases hki : i = k
      · rw [if_pos hki]
        rw [if_pos (show i < (s.resources.set j (debitedCostResource s i j)).length by
          rw [List.length_set]; exact hi)]
        rw [Option.getD_some, hT]
        subst hki
        rw [if_pos rfl]
      · rw [if_neg hki]
        by_cases hkj : j = k
        · rw [if_pos hkj, if_pos hj, Option.getD_some]
          subst hkj
          rw [if_pos rfl, if_neg (fun h => hki h.symm)]
          rfl
        · rw [if_neg hkj, ← List.getD_eq_getElem?_getD]
          rw [if_neg (fun h => hkj h.symm), if_neg (fun h => hki h.symm)]
    · have hge : s.resources.length ≤ k := le_of_not_lt hk
      have hge2 : ((s.resources.set j (debitedCostResource s i j)).set i
          (upgradedTarget s i j)).length ≤ k := by
        rw [List.length_set, List.length_set]; exact hge
      rw [List.getD_eq_default _ _ hge2, List.getD_eq_default _ _ hge]
      rw [if_neg (show ¬ k = j by omega), if_neg (show ¬ k = i by omega)]

/-! ### Persistence helpers -/

theorem decodeResourceType_encode (t : ResourceType) :
    decodeResourceType (encodeResourceType t) = some t := by
  cases t <;> rfl

theorem decodeCost_encode (c : Cost) : decodeCost (encodeCost c) = some c := by
  obtain ⟨a, t⟩ := c
  cases t <;> rfl

theorem decodeResource_encode (r : Resource) : decodeResource (encodeResource r) = some r := by
  obtain ⟨t, a, l, ⟨ca, ct⟩, p, ppt⟩ := r
  cases t <;> cases ct <;> rfl

theorem decodeResourceList_encode (l : List Resource) :
    decodeResourceList (l.map encodeResource) = some l := by
  induction l with
  | nil => rfl
  | cons r rs ih => simp [decodeResourceList, decodeResource_encode, ih]

theorem decodeGameState_encode (s : GameState) :
    decodeGameState (encodeGameState s) = some s := by
  obtain ⟨rs⟩ := s
  simp [encodeGameState, decodeGameState, decodeResourceList_encode]

theorem replayLoop_eq_iterate (n : ℕ) (s : GameState) : replayLoop n s = tick^[n] s := by
  induction n generalizing s with
  | zero => rfl
  | succ n ih =>
    rw [replayLoop, ih]
    exact (Function.iterate_succ_apply tick n s).symm

theorem offline_ticks_zero : offline_ticks 0 = 0 := by
  rw [offline_ticks, fmul, zero_mul, roundF_zero, ffloor, Int.floor_zero, Int.cast_zero,
    castF64toU64_zero]

/-- Claim C6: saving and immediately loading (zero elapsed time, hence zero
offline ticks) returns the original state: every field of every resource
round-trips unchanged through serialization. -/
theorem save_load_roundtrip (s : GameState) : load (save s) 0 = some s := by
  rw [load, save, decodeGameState_encode, Option.map_some', offline_ticks_zero]
  rfl

/-- Claim C7 (amended): the upgrade cost grows strictly with the level
whenever the base cost amount exceeds 1, as long as neither the `u32`
exponent arithmetic (`level + 2 < 2 ^ 32`) nor the `u64` power
(`base ^ (level + 2) < 2 ^ 64`) wraps; the unrestricted claim fails because
`pow` on `u64` wraps (see the counterexample at level 63, base 2). -/
theorem upgrade_cost_strict_growth (r : Resource) (hbase : 1 < r.cost.amount)
    (hlv : r.level + 2 < 2 ^ 32) (hpow : r.cost.amount ^ (r.level + 2) < U64) :
    (upgrade_cost r).amount < (upgrade_cost { r with level := r.level + 1 }).amount := by
  have e1 : (r.level % 2 ^ 32 + 1) % 2 ^ 32 = r.level + 1 := by omega
  have e2 : ((r.level + 1) % 2 ^ 32 + 1) % 2 ^ 32 = r.level + 2 := by omega
  have hp1 : r.cost.amount ^ (r.level + 1) < U64 :=
    lt_of_le_of_lt (Nat.pow_le_pow_right (by omega) (by omega)) hpow
  show (r.cost.amount ^ ((r.level % 2 ^ 32 + 1) % 2 ^ 32)) % U64 <
    (r.cost.amount ^ (((r.level + 1) % 2 ^ 32 + 1) % 2 ^ 32)) % U64
  rw [e1, e2, Nat.mod_eq_of_lt hp1, Nat.mod_eq_of_lt hpow]
  exact Nat.pow_lt_pow_right hbase (by omega)

/-- Claim C7 counterexample: with base cost 2 at level 63, the wrapped `u64`
power makes the cost at level 63 equal `2 ^ 64 % 2 ^ 64 = 0` and the cost at
level 64 also `0`, so the cost does not grow strictly although the base
exceeds 1. -/
theorem upgrade_cost_not_strict_at_63 :
    1 < r63.cost.amount ∧
    ¬ ((upgrade_cost r63).amount < (upgrade_cost { r63 with level := r63.level + 1 }).amount) := by
  decide

/-- Witness for C7 at base cost 2, level 3. -/
theorem upgrade_cost_strict_growth_witness :
    (1 < r63.cost.amount ∧ (3 : Nat) + 2 < 2 ^ 32 ∧ r63.cost.amount ^ (3 + 2) < U64) ∧
    (upgrade_cost { r63 with level := 3 }).amount <
      (upgrade_cost { { r63 with level := 3 } with level := ({ r63 with level := 3 } : Resource).level + 1 }).amount :=
  ⟨by decide, upgrade_cost_strict_growth { r63 with level := 3 } (by decide) (by decide) (by decide)⟩

/-- Claim C3 counterexample: when the target resource sits at the maximum
`u64` level and can afford its (wrapped-around) cost, the upgrade is applied
but the level wraps to 0 instead of incrementing by one; the cost resource is
still debited (amount 5 becomes 4). -/
theorem upgrade_level_wraps_at_max :
    ¬ ((upgrade_resource gs3 0).map (fun s2 => (s2.resources.getD 0 rdefault).level) =
      some ((gs3.resources.getD 0 rdefault).level + 1)) ∧
    (upgrade_resource gs3 0).map (fun s2 => (s2.resources.getD 0 rdefault).amount) = some 4 := by
  decide

/-!
The remaining proofs evaluate the binary64 model on concrete states.  The
`Rat` operations are `@[irreducible]` in Batteries, which blocks the `decide`
evaluator; within this section they are restored to their default
reducibility.
-/

section ConcreteEvaluation

attribute [local semireducible] Rat.add Rat.mul Rat.inv Rat.sub

set_option maxRecDepth 100000

/-- Claim C5: loading a saved state after `offline_secs` elapsed seconds
replays exactly `floor(offline_secs * TICK_FPS)` iterations of the very tick
function used by the live loop, so the loaded state equals ticking live that
many times; in particular 10 elapsed seconds at 10 ticks per second replay
exactly 100 ticks. -/
theorem load_offline_catchup (s : GameState) (offline_secs : ℚ) :
    load (save s) offline_secs = some (tick^[offline_ticks offline_secs] s) ∧
    offline_ticks 10 = 100 := by
  constructor
  · rw [load, save, decodeGameState_encode, Option.map_some', replayLoop_eq_iterate]
  · decide

/-- Claim C8: the spec demands that the accrual addition `amount += whole`
never wrap nor abort; the code performs a plain `u64` addition, which wraps in
release builds (and panics in debug builds).  Evaluating the model at the
failing input: the amount sits at the `u64` maximum, one whole unit accrues,
and the banked amount wraps to 0. -/
theorem tick_amount_wraps_at_u64_max :
    (gs8.resources.getD 0 rdefault).amount = 2 ^ 64 - 1 ∧
    ((tick gs8).resources.getD 0 rdefault).amount = 0 := by
  decide

/-- Claim C9 counterexample: in the §8 scenario (Wood at level 1, rate 1.0,
progress 0), after exactly 100 ticks the progress does not return to exactly
0: the binary64 value of `1 * 1.0 / 100.0` is not exactly one hundredth, and
the accumulated rounding drift survives the floor-and-subtract step. -/
theorem tick100_progress_not_zero :
    ((tick^[100] gs9).resources.getD 0 rdefault).progress ≠ 0 := by
  decide

/-- Claim C9 (amended): after exactly 100 ticks of the §8 scenario the amount
has increased by exactly one whole unit, and the progress has returned not to
exactly 0 but to the rounding remainder `3 * 2 ^ (-52)` (about `6.66e-16`). -/
theorem tick100_scenario_exact :
    ((tick^[100] gs9).resources.getD 0 rdefault).amount = 1 ∧
    ((tick^[100] gs9).resources.getD 0 rdefault).progress = 3 / 4503599627370496 := by
  decide

/-- Witness for C1 at the default roster. -/
theorem tick_accrual_rule_witness :
    (∀ r ∈ defaultGameState.resources,
      0 ≤ r.progress ∧ r.progress < 1 ∧ isF64 r.progress ∧ r.amount < U64) ∧
    ((tick defaultGameState).resources = defaultGameState.resources.map tickResource ∧
     (∀ r ∈ defaultGameState.resources,
       (tickResource r).progress =
         ffract (fadd r.progress (fdiv (fmul (f64ofNat r.level) r.progress_per_tick) 100)) ∧
       (tickResource r).amount =
         (r.amount + castF64toU64 (ffloor (fadd r.progress
           (fdiv (fmul (f64ofNat r.level) r.progress_per_tick) 100)))) % U64) ∧
     (∀ n i, (defaultGameState.resources.getD i rdefault).level = 0 →
       ((tick^[n] defaultGameState).resources.getD i rdefault).amount =
         (defaultGameState.resources.getD i rdefault).amount)) :=
  ⟨by decide, tick_accrual_rule defaultGameState (by decide)⟩

/-- Claim C2 counterexample: the state `sbad` satisfies the claim's
hypotheses (progress `1/2 ∈ [0, 1)`, rate `2 ^ 1000` a finite positive
binary64 value), yet one tick computes `level as f64 * progress_per_tick =
2 ^ 1063`, which overflows to `+∞`; the division and addition stay `+∞` and
`fract` yields NaN, so after the tick the resource's progress fails
`0 ≤ progress < 1`. -/
theorem tick_overflow_progress_nan :
    (∀ r ∈ sbad.resources, (0 ≤ r.progress ∧ r.progress < 1) ∧ 0 < r.progress_per_tick) ∧
    tickProgress64 rbad = F64.nan ∧
    ¬ (∀ r ∈ sbad.resources, (tickProgress64 r).inUnitIco) := by
  decide

/-- Witness for C2 at the default roster, whose accrual computations all stay
finite. -/
theorem tick_progress_invariant_no_overflow_witness :
    ((∀ r ∈ defaultGameState.resources,
        (0 ≤ r.progress ∧ r.progress < 1) ∧ 0 < r.progress_per_tick) ∧
     (∀ r ∈ defaultGameState.resources, (tickProgress64 r).isFinite = true)) ∧
    ((∀ r ∈ defaultGameState.resources,
        tickProgress64 r = .finite ((tickResource r).progress)) ∧
     (∀ r ∈ (tick defaultGameState).resources, 0 ≤ r.progress ∧ r.progress < 1)) :=
  ⟨⟨by decide, by decide⟩,
    tick_progress_invariant_no_overflow defaultGameState (by decide) (by decide)⟩

/-- Witness for C3 at the default roster: upgrading Wood (index 0), which is
priced in itself, debits 2 Wood and raises the Wood level to 1. -/
theorem upgrade_applied_exact_mutation_witness :
    ((0 < defaultGameState.resources.length ∧ 0 < defaultGameState.resources.length) ∧
     defaultGameState.resources.findIdx?
       (fun x => decide (x.resource_type =
         (upgrade_cost (defaultGameState.resources.getD 0 rdefault)).resource_type)) = some 0 ∧
     (upgrade_cost (defaultGameState.resources.getD 0 rdefault)).amount ≤
       (defaultGameState.resources.getD 0 rdefault).amount ∧
     (defaultGameState.resources.getD 0 rdefault).level + 1 < U64) ∧
    (∃ s2, upgrade_resource defaultGameState 0 = some s2 ∧
      s2.resources.length = defaultGameState.resources.length ∧
      ∀ k, s2.resources.getD k rdefault =
        { defaultGameState.resources.getD k rdefault with
          amount := if k = 0 then (defaultGameState.resources.getD k rdefault).amount -
              (upgrade_cost (defaultGameState.resources.getD 0 rdefault)).amount
            else (defaultGameState.resources.getD k rdefault).amount,
          level := if k = 0 then (defaultGameState.resources.getD k rdefault).level + 1
            else (defaultGameState.resources.getD k rdefault).level }) :=
  ⟨⟨⟨by decide, by decide⟩, by decide, by decide, by decide⟩,
    upgrade_applied_exact_mutation defaultGameState 0 0 (by decide) (by decide) (by decide)
      (by decide) (by decide)⟩

/-- Witness for C4 at the default roster: upgrading Stone (index 1) costs 3
Wood while only 2 Wood are banked, and the state is returned unchanged. -/
theorem upgrade_insufficient_funds_noop_witness :
    ((1 < defaultGameState.resources.length ∧ 0 < defaultGameState.resources.length) ∧
     defaultGameState.resources.findIdx?
       (fun x => decide (x.resource_type =
         (upgrade_cost (defaultGameState.resources.getD 1 rdefault)).resource_type)) = some 0 ∧
     (defaultGameState.resources.getD 0 rdefault).amount <
       (upgrade_cost (defaultGameState.resources.getD 1 rdefault)).amount) ∧
    upgrade_resource defaultGameState 1 = some defaultGameState :=
  ⟨⟨⟨by decide, by decide⟩, by decide, by decide⟩,
    upgrade_insufficient_funds_noop defaultGameState 1 0 (by decide) (by decide) (by decide)
      (by decide)⟩

end ConcreteEvaluation

end IncrementalTui
